import Mathlib

/-!
Shallow embedding of the football-results utilities in `src/utils.py`
(repository Fabulous-International-Football-Analysis-FIFA).

A pandas `DataFrame` of match results is modelled as a `List MatchRow`;
the frame's index is the `date` column, which the data ships sorted, so
pandas label slicing on the index is modelled as filtering by the date
bounds.  Python exceptions are modelled with `Except`/`Option`; integer
columns are `Int`; results of Python true division are `Rat`.
-/

/-- Calendar date, day precision (the `date` index of the results table). -/
structure MDate where
  year : Int
  month : Int
  day : Int
deriving DecidableEq, Repr

/-- Lexicographic comparison of dates, as on the pandas datetime index. -/
def dateLE (a b : MDate) : Bool :=
  decide (a.year < b.year) ||
    (decide (a.year = b.year) &&
      (decide (a.month < b.month) ||
        (decide (a.month = b.month) && decide (a.day ≤ b.day))))

/-- One row of the results table: columns `date, home_team, away_team,
home_score, away_score, tournament, city, country, neutral`. -/
structure MatchRow where
  date : MDate
  home_team : String
  away_team : String
  home_score : Int
  away_score : Int
  tournament : String
  city : String
  country : String
  neutral : Bool
deriving DecidableEq, Repr

/-- `filter_years` (src/utils.py:3-14): `results[f'{start}-01-01':f'{end}-01-01']`.
Label slicing on the sorted date index keeps the rows whose date lies between
`start`-01-01 and `end`-01-01, both ends inclusive; with `start > end` the
slice is simply empty (pandas raises no error here).  `stop` stands for the
Python parameter `end`, a reserved word in Lean. -/
def filter_years (results : List MatchRow) (start stop : Int) : List MatchRow :=
  results.filter (fun r => dateLE ⟨start, 1, 1⟩ r.date && dateLE r.date ⟨stop, 1, 1⟩)

/-- `filter_teams` (src/utils.py:16-26):
`pd.concat([results.loc[(results['home_team']==team) | (results['away_team']==team)] for team in teams])`.
`pd.concat` raises `ValueError: No objects to concatenate` when the list
comprehension is empty, i.e. when `teams == []`. -/
def filter_teams (results : List MatchRow) (teams : List String) :
    Except String (List MatchRow) :=
  if teams = [] then Except.error "No objects to concatenate"
  else Except.ok
    ((teams.map (fun team =>
        results.filter (fun r => r.home_team == team || r.away_team == team))).flatten)

/-- `filter_encounter` (src/utils.py:28-40): rows where the two teams met,
in either orientation. -/
def filter_encounter (results : List MatchRow) (team1 team2 : String) : List MatchRow :=
  results.filter (fun r =>
    (r.home_team == team1 && r.away_team == team2) ||
    (r.home_team == team2 && r.away_team == team1))

/-- `get_home_match` (src/utils.py:42-53): rows with `home_team == team`. -/
def get_home_match (results : List MatchRow) (team : String) : List MatchRow :=
  results.filter (fun r => r.home_team == team)

/-- `get_away_match` (src/utils.py:55-66): rows with `away_team == team`. -/
def get_away_match (results : List MatchRow) (team : String) : List MatchRow :=
  results.filter (fun r => r.away_team == team)

/-- `swap_columns` (src/utils.py:68-82).  The source first permutes the
column list and then renames the four columns back, which nets out, row by
row, to exchanging the values home_team↔away_team and home_score↔away_score
while every other column and the column order stay as they were. -/
def swap_columns (results : List MatchRow) : List MatchRow :=
  results.map (fun r =>
    { r with
      home_team := r.away_team
      away_team := r.home_team
      home_score := r.away_score
      away_score := r.home_score })

/-- Row of the frame produced by `merge_matches`: a results row plus the
added boolean `home` column. -/
structure MatchH extends MatchRow where
  home : Bool
deriving DecidableEq, Repr

/-- Insertion step of the date sort used to model `sort_index()`. -/
def insertByDate (r : MatchRow) : List MatchRow → List MatchRow
  | [] => [r]
  | x :: xs => if dateLE r.date x.date then r :: x :: xs else x :: insertByDate r xs

/-- Sorting by the date index, modelling `DataFrame.sort_index()` on the
date-indexed results frame. -/
def sortByDate : List MatchRow → List MatchRow
  | [] => []
  | x :: xs => insertByDate x (sortByDate xs)

/-- `merge_matches` (src/utils.py:84-99): concatenates the team's home rows
with its column-swapped away rows, sorts by the date index, then sets
`temp['home'] = temp['home_team'] == temp['country']` — note the flag
compares the post-swap home_team with the `country` column. -/
def merge_matches (results : List MatchRow) (team : String) : List MatchH :=
  let temp := sortByDate
    (get_home_match results team ++ swap_columns (get_away_match results team))
  temp.map (fun r => ⟨r, r.home_team == r.country⟩)

/-- Row of the frame produced by `goal_difference`: a merged row plus the
added `goal_difference` column. -/
structure MatchG extends MatchH where
  goal_difference : Int
deriving DecidableEq, Repr

/-- `goal_difference` (src/utils.py:101-113): appends the column
`goal_difference = home_score - away_score`. -/
def goal_difference (results : List MatchH) : List MatchG :=
  results.map (fun r => ⟨r, r.home_score - r.away_score⟩)

/-- Accumulator of the loop in `aggregate_results`. -/
structure PairAcc where
  team1_score : Int
  team2_score : Int
  team1_wins : Int
  team2_wins : Int
  draws : Int
deriving DecidableEq, Repr

/-- One iteration of the loop in `aggregate_results` (src/utils.py:132-148). -/
def pairStep (team1 : String) (acc : PairAcc) (row : MatchRow) : PairAcc :=
  if row.home_team == team1 then
    let acc1 := { acc with
      team1_score := acc.team1_score + row.home_score
      team2_score := acc.team2_score + row.away_score }
    if row.home_score > row.away_score then { acc1 with team1_wins := acc1.team1_wins + 1 }
    else if row.home_score < row.away_score then { acc1 with team2_wins := acc1.team2_wins + 1 }
    else { acc1 with draws := acc1.draws + 1 }
  else
    let acc1 := { acc with
      team1_score := acc.team1_score + row.away_score
      team2_score := acc.team2_score + row.home_score }
    if row.away_score > row.home_score then { acc1 with team1_wins := acc1.team1_wins + 1 }
    else if row.away_score < row.home_score then { acc1 with team2_wins := acc1.team2_wins + 1 }
    else { acc1 with draws := acc1.draws + 1 }

/-- The pairwise summary returned by `aggregate_results`. -/
structure PairSummary where
  team1 : String
  team2 : String
  team1_score : Int
  team2_score : Int
  team1_wins : Int
  team2_wins : Int
  draws : Int
  total : Int
deriving DecidableEq, Repr

/-- `aggregate_results` (src/utils.py:115-160): replays every encounter
between the pair, then sets `total = draws + team2_wins + team1_wins`. -/
def aggregate_results (results : List MatchRow) (team1 team2 : String) : PairSummary :=
  let acc := (filter_encounter results team1 team2).foldl (pairStep team1) ⟨0, 0, 0, 0, 0⟩
  ⟨team1, team2, acc.team1_score, acc.team2_score,
    acc.team1_wins, acc.team2_wins, acc.draws,
    acc.draws + acc.team2_wins + acc.team1_wins⟩

/-- Accumulator of the loop in `team_summary` (running integer sums; the
two averages are divided only after the loop). -/
structure SumAcc where
  win : Int
  draw : Int
  loss : Int
  goal_average : Int
  goal_scored_average : Int
  goal_taken_average : Int
deriving DecidableEq, Repr

/-- One iteration of the loop in `team_summary` (src/utils.py:178-187). -/
def sumStep (acc : SumAcc) (m : MatchG) : SumAcc :=
  let acc1 :=
    if m.home_score > m.away_score then { acc with win := acc.win + 1 }
    else if m.home_score == m.away_score then { acc with draw := acc.draw + 1 }
    else { acc with loss := acc.loss + 1 }
  { acc1 with
    goal_average := acc1.goal_average + m.goal_difference
    goal_scored_average := acc1.goal_scored_average + m.home_score
    goal_taken_average := acc1.goal_taken_average + m.away_score }

/-- The per-team summary returned by `team_summary`. -/
structure TeamSummary where
  team : String
  goal_average : Int
  goal_scored_average : Rat
  goal_taken_average : Rat
  win : Int
  draw : Int
  loss : Int
  FIFA_rank : Int
deriving DecidableEq, Repr

/-- `team_summary` (src/utils.py:162-195).  The FIFA table is modelled by
its `Country` column; `fifa[fifa['Country']==team].index[0]` on the default
RangeIndex is the first position whose country equals `team`, raising
`IndexError` when there is none; dividing by `win+draw+loss = 0` raises
`ZeroDivisionError`.  Both failures are modelled by `none`. -/
def team_summary (results : List MatchRow) (team : String) (fifa : List String) :
    Option TeamSummary :=
  let acc := (goal_difference (merge_matches results team)).foldl sumStep ⟨0, 0, 0, 0, 0, 0⟩
  let n := acc.win + acc.draw + acc.loss
  if n = 0 then none
  else
    match fifa.findIdx? (fun c => c == team) with
    | none => none
    | some i => some
        ⟨team, acc.goal_average,
          (acc.goal_scored_average : Rat) / (n : Rat),
          (acc.goal_taken_average : Rat) / (n : Rat),
          acc.win, acc.draw, acc.loss, (i : Int)⟩

/-- `aggregate_summaries` (src/utils.py:197-216): appends each team's
summary to the growing frame, and the bare `except: continue` drops every
team whose summary raised; the closing `pd.to_numeric` coercion is the
identity on the already-numeric columns. -/
def aggregate_summaries (data : List MatchRow) (teams : List String) (fifa : List String) :
    List TeamSummary :=
  teams.foldl
    (fun temp team =>
      match team_summary data team fifa with
      | some s => temp ++ [s]
      | none => temp)
    []

/-- Python `range(a, b)` over integers: the years `a, a+1, ..., b-1`. -/
def intRange (a b : Int) : List Int :=
  (List.range (b - a).toNat).map (fun n : Nat => a + (n : Int))

/-- Minimum of an integer column, `Series.min()`; the default on the empty
column is irrelevant because the source only takes minima of nonempty
selections. -/
def listMinD : List Int → Int
  | [] => 0
  | x :: xs => xs.foldl min x

/-- Maximum of an integer column, `Series.max()`; default as in `listMinD`. -/
def listMaxD : List Int → Int
  | [] => 0
  | x :: xs => xs.foldl max x

/-- `Series.unique()`: the distinct values in order of first appearance. -/
def uniqueList (l : List String) : List String :=
  l.foldl (fun acc x => if x ∈ acc then acc else acc ++ [x]) []

/-- Row of the time series fed to `fill_years` in team mode: columns
`date` (a year), `cumulated_score`, `home_team`, in that order (the order
that `pd.Series([gap, 0, team], index=df.columns)` relies on). -/
structure TeamSeriesRow where
  date : Int
  cumulated_score : Int
  home_team : String
deriving DecidableEq, Repr

/-- Row of the series fed to `fill_years` in country mode and produced by
`aggregate_countries`: columns `country`, `match_hosted`, `date` (a year),
in that order. -/
structure CountrySeriesRow where
  country : String
  match_hosted : Int
  date : Int
deriving DecidableEq, Repr

/-- `df.loc[df['home_team'] == team]` on a team-mode series. -/
def locTeam (df : List TeamSeriesRow) (team : String) : List TeamSeriesRow :=
  df.filter (fun r => r.home_team == team)

/-- `df.loc[df['country'] == pays]` on a country-mode series. -/
def locCountry (df : List CountrySeriesRow) (pays : String) : List CountrySeriesRow :=
  df.filter (fun r => r.country == pays)

/-- Body of the team-mode loop of `fill_years` (src/utils.py:231-237) for a
single team, acting on the current frame `df`: first append one row
`(gap, 0, team)` per year `gap` in `range(min_year, first year of team)`,
then one row `(after_gap, m, team)` per year `after_gap` in
`range(last year of team, max_year + 1)`, where `m` is the team's maximum
`cumulated_score` re-read after the first batch of appends (the re-reads
inside the second loop keep returning the same value, because every row it
appends carries exactly that maximum). -/
def fillTeamStep (minYear maxYear : Int) (df : List TeamSeriesRow) (team : String) :
    List TeamSeriesRow :=
  let before := (intRange minYear (listMinD ((locTeam df team).map (fun r => r.date)))).map
    (fun y => (⟨y, 0, team⟩ : TeamSeriesRow))
  let df1 := df ++ before
  let lastYear := listMaxD ((locTeam df1 team).map (fun r => r.date))
  let m := listMaxD ((locTeam df1 team).map (fun r => r.cumulated_score))
  df1 ++ (intRange lastYear (maxYear + 1)).map (fun y => (⟨y, m, team⟩ : TeamSeriesRow))

/-- Team-mode branch of `fill_years` (src/utils.py:228-237): the global
`min_year`/`max_year` and the team list come from the original frame, and
the frame then grows one team at a time. -/
def fill_years_team (df : List TeamSeriesRow) : List TeamSeriesRow :=
  let min_year := listMinD (df.map (fun r => r.date))
  let max_year := listMaxD (df.map (fun r => r.date))
  (uniqueList (df.map (fun r => r.home_team))).foldl (fillTeamStep min_year max_year) df

/-- Body of the country-mode loop of `fill_years` (src/utils.py:239-245)
for a single country; the appended rows are `(pays, value, year)` in the
country frame's column order, otherwise exactly as in team mode with
`match_hosted` in place of `cumulated_score`. -/
def fillCountryStep (minYear maxYear : Int) (df : List CountrySeriesRow) (pays : String) :
    List CountrySeriesRow :=
  let before := (intRange minYear (listMinD ((locCountry df pays).map (fun r => r.date)))).map
    (fun y => (⟨pays, 0, y⟩ : CountrySeriesRow))
  let df1 := df ++ before
  let lastYear := listMaxD ((locCountry df1 pays).map (fun r => r.date))
  let m := listMaxD ((locCountry df1 pays).map (fun r => r.match_hosted))
  df1 ++ (intRange lastYear (maxYear + 1)).map (fun y => (⟨pays, m, y⟩ : CountrySeriesRow))

/-- Country-mode branch of `fill_years` (src/utils.py:228-229, 238-245). -/
def fill_years_country (df : List CountrySeriesRow) : List CountrySeriesRow :=
  let min_year := listMinD (df.map (fun r => r.date))
  let max_year := listMaxD (df.map (fun r => r.date))
  (uniqueList (df.map (fun r => r.country))).foldl (fillCountryStep min_year max_year) df

/-- The two shapes of frame `fill_years` is applied to. -/
inductive SeriesDF where
  | teamDF (rows : List TeamSeriesRow) : SeriesDF
  | countryDF (rows : List CountrySeriesRow) : SeriesDF
deriving DecidableEq, Repr

/-- `fill_years` (src/utils.py:218-248).  Mode `"team"` reads the
`home_team`/`cumulated_score` columns and mode `"country"` the
`country`/`match_hosted` columns, so either mode applied to the other
shape of frame raises `KeyError`; any other mode only prints
`please provide a mode` and returns the frame unchanged. -/
def fill_years (df : SeriesDF) (mode : String) : Except String SeriesDF :=
  if mode == "team" then
    match df with
    | SeriesDF.teamDF rows => Except.ok (SeriesDF.teamDF (fill_years_team rows))
    | SeriesDF.countryDF _ => Except.error "KeyError"
  else if mode == "country" then
    match df with
    | SeriesDF.countryDF rows => Except.ok (SeriesDF.countryDF (fill_years_country rows))
    | SeriesDF.teamDF _ => Except.error "KeyError"
  else
    Except.ok df

/-- Inner loop of `aggregate_countries` (src/utils.py:256-260): fold the
per-year match counts of one country's selection into a running cumulative
`match_hosted`, emitting one row per year bucket. -/
def hostCumRows (pays : String) (temp : List MatchRow) (years : List Int) :
    Int × List CountrySeriesRow :=
  years.foldl
    (fun (st : Int × List CountrySeriesRow) y =>
      let c := st.1 + (temp.countP (fun r => r.date.year == y) : Int)
      (c, st.2 ++ [⟨pays, c, y⟩]))
    ((0 : Int), ([] : List CountrySeriesRow))

/-- One iteration of the `aggregate_countries` loop for a single value of
`pays` (see the doc comment on `aggregate_countries`). -/
def countryStep (df : List MatchRow) (df_final : List CountrySeriesRow) (pays : String) :
    List CountrySeriesRow :=
  let temp := df.filter (fun r => r.country == pays)
  match temp with
  | [] => df_final
  | _ :: _ =>
    df_final ++ (hostCumRows pays temp
      (intRange (listMinD (temp.map (fun r => r.date.year)))
        (listMaxD (temp.map (fun r => r.date.year)) + 1))).2

/-- `aggregate_countries` (src/utils.py:250-271).  For each value `pays` of
the `home_team` column: select the rows whose `country` equals `pays`,
bucket them with `pd.Grouper(freq='Y')` — one bucket per year from the
selection's first to its last year, empty buckets included — and fold the
per-year counts into a running cumulative `match_hosted`.  When the
selection is empty the loop never creates the `match_hosted` column and
the later access to it raises `KeyError`, which the `except KeyError:
continue` turns into skipping that value of `pays`. -/
def aggregate_countries (df : List MatchRow) : List CountrySeriesRow :=
  (uniqueList (df.map (fun r => r.home_team))).foldl (countryStep df) []

/-- Rows the team-mode branch of `fill_years` appends before a team's first
year: value 0 for every year in `[min_year, first year)`. -/
def beforeRowsT (minYear : Int) (team : String) (tRows : List TeamSeriesRow) :
    List TeamSeriesRow :=
  (intRange minYear (listMinD (tRows.map (fun r => r.date)))).map
    (fun y => (⟨y, 0, team⟩ : TeamSeriesRow))

/-- Rows the team-mode branch of `fill_years` appends from a team's last
year on: the team's maximum `cumulated_score` for every year in
`[last year, max_year]` — the last year itself included, hence duplicated. -/
def afterRowsT (minYear maxYear : Int) (team : String) (tRows : List TeamSeriesRow) :
    List TeamSeriesRow :=
  (intRange (listMaxD ((tRows ++ beforeRowsT minYear team tRows).map (fun r => r.date)))
      (maxYear + 1)).map
    (fun y =>
      (⟨y, listMaxD ((tRows ++ beforeRowsT minYear team tRows).map
        (fun r => r.cumulated_score)), team⟩ : TeamSeriesRow))

/-- Country-mode analogue of `beforeRowsT`. -/
def beforeRowsC (minYear : Int) (pays : String) (cRows : List CountrySeriesRow) :
    List CountrySeriesRow :=
  (intRange minYear (listMinD (cRows.map (fun r => r.date)))).map
    (fun y => (⟨pays, 0, y⟩ : CountrySeriesRow))

/-- Country-mode analogue of `afterRowsT`. -/
def afterRowsC (minYear maxYear : Int) (pays : String) (cRows : List CountrySeriesRow) :
    List CountrySeriesRow :=
  (intRange (listMaxD ((cRows ++ beforeRowsC minYear pays cRows).map (fun r => r.date)))
      (maxYear + 1)).map
    (fun y =>
      (⟨pays, listMaxD ((cRows ++ beforeRowsC minYear pays cRows).map
        (fun r => r.match_hosted)), y⟩ : CountrySeriesRow))

/-! Helper lemmas about the list primitives. -/

theorem mem_intRange {a b y : Int} : y ∈ intRange a b ↔ a ≤ y ∧ y < b := by
  unfold intRange
  constructor
  · intro h
    obtain ⟨i, hi, hy⟩ := List.mem_map.mp h
    have hi2 : i < (b - a).toNat := List.mem_range.mp hi
    omega
  · intro h
    apply List.mem_map.mpr
    refine ⟨(y - a).toNat, List.mem_range.mpr ?_, ?_⟩
    · omega
    · omega

theorem foldl_min_le_init (l : List Int) (a : Int) : l.foldl min a ≤ a := by
  induction l generalizing a with
  | nil => simp
  | cons x xs ih =>
    simpa using le_trans (ih (min a x)) (min_le_left a x)

theorem foldl_min_le_of_mem {l : List Int} {x : Int} (h : x ∈ l) (a : Int) :
    l.foldl min a ≤ x := by
  induction l generalizing a with
  | nil => cases h
  | cons y ys ih =>
    simp only [List.foldl_cons]
    rcases List.mem_cons.mp h with rfl | h'
    · exact le_trans (foldl_min_le_init ys (min a x)) (min_le_right a x)
    · exact ih h' (min a y)

theorem listMinD_le_of_mem {l : List Int} {x : Int} (h : x ∈ l) : listMinD l ≤ x := by
  cases l with
  | nil => cases h
  | cons y ys =>
    unfold listMinD
    rcases List.mem_cons.mp h with rfl | h'
    · exact foldl_min_le_init ys x
    · exact foldl_min_le_of_mem h' y

theorem le_foldl_max_init (l : List Int) (a : Int) : a ≤ l.foldl max a := by
  induction l generalizing a with
  | nil => simp
  | cons x xs ih =>
    simpa using le_trans (le_max_left a x) (ih (max a x))

theorem le_foldl_max_of_mem {l : List Int} {x : Int} (h : x ∈ l) (a : Int) :
    x ≤ l.foldl max a := by
  induction l generalizing a with
  | nil => cases h
  | cons y ys ih =>
    simp only [List.foldl_cons]
    rcases List.mem_cons.mp h with rfl | h'
    · exact le_trans (le_max_right a x) (le_foldl_max_init ys (max a x))
    · exact ih h' (max a y)

theorem le_listMaxD_of_mem {l : List Int} {x : Int} (h : x ∈ l) : x ≤ listMaxD l := by
  cases l with
  | nil => cases h
  | cons y ys =>
    unfold listMaxD
    rcases List.mem_cons.mp h with rfl | h'
    · exact le_foldl_max_init ys x
    · exact le_foldl_max_of_mem h' y

theorem foldl_max_mem (l : List Int) (a : Int) : l.foldl max a = a ∨ l.foldl max a ∈ l := by
  induction l generalizing a with
  | nil => left; rfl
  | cons x xs ih =>
    simp only [List.foldl_cons]
    rcases ih (max a x) with h | h
    · rw [h]
      rcases le_total a x with hax | hax
      · right
        rw [max_eq_right hax]
        exact List.mem_cons_self x xs
      · left
        exact max_eq_left hax
    · right
      exact List.mem_cons_of_mem x h

theorem listMaxD_mem {l : List Int} (h : l ≠ []) : listMaxD l ∈ l := by
  cases l with
  | nil => exact absurd rfl h
  | cons x xs =>
    simp only [listMaxD]
    rcases foldl_max_mem xs x with h1 | h1
    · rw [h1]
      exact List.mem_cons_self x xs
    · exact List.mem_cons_of_mem x h1

theorem uniqueList_aux_mem (l : List String) (acc : List String) (a : String) :
    a ∈ l.foldl (fun acc x => if x ∈ acc then acc else acc ++ [x]) acc
      ↔ a ∈ acc ∨ a ∈ l := by
  induction l generalizing acc with
  | nil => simp
  | cons x xs ih =>
    simp only [List.foldl_cons]
    by_cases hx : x ∈ acc
    · rw [if_pos hx, ih]
      constructor
      · rintro (h | h)
        · exact Or.inl h
        · exact Or.inr (List.mem_cons_of_mem x h)
      · rintro (h | h)
        · exact Or.inl h
        · rcases List.mem_cons.mp h with rfl | h2
          · exact Or.inl hx
          · exact Or.inr h2
    · rw [if_neg hx, ih]
      simp only [List.mem_append, List.mem_singleton, List.mem_cons]
      tauto

theorem mem_uniqueList {l : List String} {a : String} : a ∈ uniqueList l ↔ a ∈ l := by
  unfold uniqueList
  rw [uniqueList_aux_mem]
  simp

theorem uniqueList_aux_nodup (l : List String) (acc : List String) (h : acc.Nodup) :
    (l.foldl (fun acc x => if x ∈ acc then acc else acc ++ [x]) acc).Nodup := by
  induction l generalizing acc with
  | nil => exact h
  | cons x xs ih =>
    simp only [List.foldl_cons]
    by_cases hx : x ∈ acc
    · rw [if_pos hx]
      exact ih _ h
    · rw [if_neg hx]
      refine ih _ ?_
      rw [List.nodup_append]
      refine ⟨h, List.nodup_singleton x, ?_⟩
      intro a ha hax
      rw [List.mem_singleton] at hax
      exact hx (hax ▸ ha)

theorem uniqueList_nodup (l : List String) : (uniqueList l).Nodup :=
  uniqueList_aux_nodup l [] List.nodup_nil

/-! Characterization of the team-mode branch of `fill_years`. -/

theorem mem_locTeam {df : List TeamSeriesRow} {t : String} {r : TeamSeriesRow} :
    r ∈ locTeam df t ↔ r ∈ df ∧ r.home_team = t := by
  unfold locTeam
  rw [List.mem_filter]
  simp

theorem locTeam_append (a b : List TeamSeriesRow) (t : String) :
    locTeam (a ++ b) t = locTeam a t ++ locTeam b t :=
  List.filter_append _ _

theorem locTeam_map_self {t : String} (f : Int → TeamSeriesRow)
    (hf : ∀ y, (f y).home_team = t) (ys : List Int) :
    locTeam (ys.map f) t = ys.map f := by
  unfold locTeam
  rw [List.filter_eq_self]
  intro r hr
  obtain ⟨y, _, rfl⟩ := List.mem_map.mp hr
  simp [hf y]

theorem locTeam_map_ne {t : String} (f : Int → TeamSeriesRow)
    (hf : ∀ y, (f y).home_team ≠ t) (ys : List Int) :
    locTeam (ys.map f) t = [] := by
  unfold locTeam
  rw [List.filter_eq_nil_iff]
  intro r hr
  obtain ⟨y, _, rfl⟩ := List.mem_map.mp hr
  simp [hf y]

theorem locTeam_map_const_self (t : String) (v : Int) (ys : List Int) :
    locTeam (ys.map (fun y => (⟨y, v, t⟩ : TeamSeriesRow))) t
      = ys.map (fun y => (⟨y, v, t⟩ : TeamSeriesRow)) :=
  locTeam_map_self (fun y => (⟨y, v, t⟩ : TeamSeriesRow)) (fun _ => rfl) ys

theorem locTeam_map_const_ne {t u : String} (h : u ≠ t) (v : Int) (ys : List Int) :
    locTeam (ys.map (fun y => (⟨y, v, u⟩ : TeamSeriesRow))) t = [] :=
  locTeam_map_ne (fun y => (⟨y, v, u⟩ : TeamSeriesRow)) (fun _ => h) ys

theorem locTeam_beforeRowsT (minYear : Int) (t : String) (tR : List TeamSeriesRow) :
    locTeam (beforeRowsT minYear t tR) t = beforeRowsT minYear t tR := by
  unfold beforeRowsT
  exact locTeam_map_const_self t 0 _

theorem fillTeamStep_eq (minYear maxYear : Int) (df : List TeamSeriesRow) (t : String) :
    fillTeamStep minYear maxYear df t
      = (df ++ beforeRowsT minYear t (locTeam df t))
          ++ (intRange (listMaxD ((locTeam (df ++ beforeRowsT minYear t (locTeam df t)) t).map
                (fun r => r.date))) (maxYear + 1)).map
              (fun y => (⟨y, listMaxD ((locTeam (df ++ beforeRowsT minYear t (locTeam df t)) t).map
                (fun r => r.cumulated_score)), t⟩ : TeamSeriesRow)) := rfl

theorem locTeam_fillTeamStep_self (minYear maxYear : Int) (df : List TeamSeriesRow)
    (t : String) :
    locTeam (fillTeamStep minYear maxYear df t) t
      = locTeam df t ++ beforeRowsT minYear t (locTeam df t)
          ++ afterRowsT minYear maxYear t (locTeam df t) := by
  have hB : locTeam (df ++ beforeRowsT minYear t (locTeam df t)) t
      = locTeam df t ++ beforeRowsT minYear t (locTeam df t) := by
    rw [locTeam_append, locTeam_beforeRowsT]
  rw [fillTeamStep_eq, locTeam_append, hB, locTeam_map_const_self]
  unfold afterRowsT
  rfl

theorem locTeam_fillTeamStep_ne (minYear maxYear : Int) (df : List TeamSeriesRow)
    {t u : String} (h : u ≠ t) :
    locTeam (fillTeamStep minYear maxYear df u) t = locTeam df t := by
  have hB : locTeam (beforeRowsT minYear u (locTeam df u)) t = [] := by
    unfold beforeRowsT
    exact locTeam_map_const_ne h 0 _
  rw [fillTeamStep_eq, locTeam_append, locTeam_append, hB, locTeam_map_const_ne h]
  simp

theorem locTeam_foldl_notmem (minYear maxYear : Int) {t : String} {L : List String}
    (h : t ∉ L) (df : List TeamSeriesRow) :
    locTeam (L.foldl (fillTeamStep minYear maxYear) df) t = locTeam df t := by
  induction L generalizing df with
  | nil => rfl
  | cons u us ih =>
    simp only [List.foldl_cons]
    have hu : u ≠ t := by
      rintro rfl
      exact h (List.mem_cons_self u us)
    rw [ih (fun hm => h (List.mem_cons_of_mem u hm)) (fillTeamStep minYear maxYear df u),
      locTeam_fillTeamStep_ne _ _ _ hu]

theorem locTeam_foldl_mem (minYear maxYear : Int) {t : String} {L : List String}
    (hnd : L.Nodup) (hmem : t ∈ L) (df df0 : List TeamSeriesRow)
    (hdf : locTeam df t = locTeam df0 t) :
    locTeam (L.foldl (fillTeamStep minYear maxYear) df) t
      = locTeam df0 t ++ beforeRowsT minYear t (locTeam df0 t)
          ++ afterRowsT minYear maxYear t (locTeam df0 t) := by
  induction L generalizing df with
  | nil => cases hmem
  | cons u us ih =>
    simp only [List.foldl_cons]
    rcases List.mem_cons.mp hmem with rfl | hmem'
    · have hnotin : t ∉ us := (List.nodup_cons.mp hnd).1
      rw [locTeam_foldl_notmem _ _ hnotin, locTeam_fillTeamStep_self, hdf]
    · have hu : u ≠ t := by
        rintro rfl
        exact (List.nodup_cons.mp hnd).1 hmem'
      exact ih (List.nodup_cons.mp hnd).2 hmem' _
        (by rw [locTeam_fillTeamStep_ne _ _ _ hu, hdf])

theorem locTeam_fill_years_team (df : List TeamSeriesRow) {t : String}
    (ht : t ∈ df.map (fun r => r.home_team)) :
    locTeam (fill_years_team df) t
      = locTeam df t
          ++ beforeRowsT (listMinD (df.map (fun r => r.date))) t (locTeam df t)
          ++ afterRowsT (listMinD (df.map (fun r => r.date)))
              (listMaxD (df.map (fun r => r.date))) t (locTeam df t) :=
  locTeam_foldl_mem _ _ (uniqueList_nodup _) (mem_uniqueList.mpr ht) df df rfl

theorem locTeam_ne_nil {df : List TeamSeriesRow} {t : String}
    (ht : t ∈ df.map (fun r => r.home_team)) : locTeam df t ≠ [] := by
  obtain ⟨r, hr, hrt⟩ := List.mem_map.mp ht
  intro hnil
  have hmem : r ∈ locTeam df t := mem_locTeam.mpr ⟨hr, hrt⟩
  rw [hnil] at hmem
  cases hmem

theorem mem_beforeRowsT {minYear : Int} {t : String} {tR : List TeamSeriesRow}
    {r : TeamSeriesRow} (h : r ∈ beforeRowsT minYear t tR) :
    r.cumulated_score = 0 ∧ minYear ≤ r.date ∧
      r.date < listMinD (tR.map (fun x => x.date)) := by
  unfold beforeRowsT at h
  obtain ⟨y, hy, rfl⟩ := List.mem_map.mp h
  obtain ⟨h1, h2⟩ := mem_intRange.mp hy
  exact ⟨rfl, h1, h2⟩

theorem mem_afterRowsT {minYear maxYear : Int} {t : String} {tR : List TeamSeriesRow}
    {r : TeamSeriesRow} (h : r ∈ afterRowsT minYear maxYear t tR) :
    r.cumulated_score
        = listMaxD ((tR ++ beforeRowsT minYear t tR).map (fun x => x.cumulated_score))
      ∧ listMaxD ((tR ++ beforeRowsT minYear t tR).map (fun x => x.date)) ≤ r.date
      ∧ r.date ≤ maxYear := by
  unfold afterRowsT at h
  obtain ⟨y, hy, rfl⟩ := List.mem_map.mp h
  obtain ⟨h1, h2⟩ := mem_intRange.mp hy
  refine ⟨rfl, h1, ?_⟩
  show y ≤ maxYear
  omega

theorem before_after_mono (minY maxY : Int) (t : String) (tR : List TeamSeriesRow)
    (htRne : tR ≠ [])
    (hnn : ∀ r ∈ tR, 0 ≤ r.cumulated_score)
    (hmono : ∀ r1 ∈ tR, ∀ r2 ∈ tR,
      r1.date ≤ r2.date → r1.cumulated_score ≤ r2.cumulated_score) :
    ∀ r1 ∈ tR ++ beforeRowsT minY t tR ++ afterRowsT minY maxY t tR,
      ∀ r2 ∈ tR ++ beforeRowsT minY t tR ++ afterRowsT minY maxY t tR,
        r1.date ≤ r2.date → r1.cumulated_score ≤ r2.cumulated_score := by
  have hextne : tR ++ beforeRowsT minY t tR ≠ [] := by
    intro hx
    exact htRne (List.append_eq_nil.mp hx).1
  have hMge : ∀ r ∈ tR ++ beforeRowsT minY t tR,
      r.cumulated_score ≤ listMaxD ((tR ++ beforeRowsT minY t tR).map (fun x => x.cumulated_score)) :=
    fun r hr => le_listMaxD_of_mem (List.mem_map_of_mem _ hr)
  have hDge : ∀ r ∈ tR ++ beforeRowsT minY t tR, r.date ≤ listMaxD ((tR ++ beforeRowsT minY t tR).map (fun x => x.date)) :=
    fun r hr => le_listMaxD_of_mem (List.mem_map_of_mem _ hr)
  have hminle : ∀ r ∈ tR, listMinD (tR.map (fun x => x.date)) ≤ r.date :=
    fun r hr => listMinD_le_of_mem (List.mem_map_of_mem _ hr)
  have hextnn : ∀ r ∈ tR ++ beforeRowsT minY t tR, 0 ≤ r.cumulated_score := by
    intro r hr
    rcases List.mem_append.mp hr with h | h
    · exact hnn r h
    · rw [(mem_beforeRowsT h).1]
  have hMmem : ∃ r ∈ tR ++ beforeRowsT minY t tR,
      r.cumulated_score = listMaxD ((tR ++ beforeRowsT minY t tR).map (fun x => x.cumulated_score)) := by
    have hmapne : ((tR ++ beforeRowsT minY t tR).map (fun x => x.cumulated_score)) ≠ [] := by
      intro hmap
      exact hextne (List.map_eq_nil_iff.mp hmap)
    obtain ⟨r, hr, hrs⟩ := List.mem_map.mp (listMaxD_mem hmapne)
    exact ⟨r, hr, hrs⟩
  have hMnn : 0 ≤ listMaxD ((tR ++ beforeRowsT minY t tR).map (fun x => x.cumulated_score)) := by
    obtain ⟨r, hr, hrs⟩ := hMmem
    rw [← hrs]
    exact hextnn r hr
  have hMle : ∀ r2 ∈ tR, (∀ x ∈ tR, x.date ≤ r2.date) →
      listMaxD ((tR ++ beforeRowsT minY t tR).map (fun x => x.cumulated_score)) ≤ r2.cumulated_score := by
    intro r2 hr2 hall
    obtain ⟨r, hr, hrs⟩ := hMmem
    rw [← hrs]
    rcases List.mem_append.mp hr with h | h
    · exact hmono r h r2 hr2 (hall r h)
    · rw [(mem_beforeRowsT h).1]
      exact hnn r2 hr2
  intro r1 h1 r2 h2 hle
  rcases List.mem_append.mp h1 with h1x | h1A
  · rcases List.mem_append.mp h1x with h1T | h1B
    · rcases List.mem_append.mp h2 with h2x | h2A
      · rcases List.mem_append.mp h2x with h2T | h2B
        · exact hmono r1 h1T r2 h2T hle
        · obtain ⟨_, _, hlt⟩ := mem_beforeRowsT h2B
          have hge := hminle r1 h1T
          omega
      · rw [(mem_afterRowsT h2A).1]
        exact hMge r1 (List.mem_append_left _ h1T)
    · rw [(mem_beforeRowsT h1B).1]
      rcases List.mem_append.mp h2 with h2x | h2A
      · rcases List.mem_append.mp h2x with h2T | h2B
        · exact hnn r2 h2T
        · rw [(mem_beforeRowsT h2B).1]
      · rw [(mem_afterRowsT h2A).1]
        exact hMnn
  · obtain ⟨hs1, hd1, _⟩ := mem_afterRowsT h1A
    rcases List.mem_append.mp h2 with h2x | h2A
    · rcases List.mem_append.mp h2x with h2T | h2B
      · rw [hs1]
        apply hMle r2 h2T
        intro x hx
        have hxD := hDge x (List.mem_append_left _ hx)
        omega
      · obtain ⟨_, _, hlt2⟩ := mem_beforeRowsT h2B
        obtain ⟨r0, hr0⟩ := List.exists_mem_of_ne_nil tR htRne
        have h01 := hminle r0 hr0
        have h02 := hDge r0 (List.mem_append_left _ hr0)
        omega
    · rw [hs1, (mem_afterRowsT h2A).1]

theorem fill_years_team_mono (df : List TeamSeriesRow) {t : String}
    (ht : t ∈ df.map (fun r => r.home_team))
    (hnn : ∀ r ∈ locTeam df t, 0 ≤ r.cumulated_score)
    (hmono : ∀ r1 ∈ locTeam df t, ∀ r2 ∈ locTeam df t,
      r1.date ≤ r2.date → r1.cumulated_score ≤ r2.cumulated_score) :
    ∀ r1 ∈ locTeam (fill_years_team df) t, ∀ r2 ∈ locTeam (fill_years_team df) t,
      r1.date ≤ r2.date → r1.cumulated_score ≤ r2.cumulated_score := by
  intro r1 h1 r2 h2 hle
  rw [locTeam_fill_years_team df ht] at h1 h2
  exact before_after_mono _ _ t (locTeam df t) (locTeam_ne_nil ht)
    hnn hmono r1 h1 r2 h2 hle

/-! Characterization of the country-mode branch of `fill_years` (mirror of
the team-mode lemmas with the country frame's column layout). -/

theorem mem_locCountry {df : List CountrySeriesRow} {c : String} {r : CountrySeriesRow} :
    r ∈ locCountry df c ↔ r ∈ df ∧ r.country = c := by
  unfold locCountry
  rw [List.mem_filter]
  simp

theorem locCountry_append (a b : List CountrySeriesRow) (c : String) :
    locCountry (a ++ b) c = locCountry a c ++ locCountry b c :=
  List.filter_append _ _

theorem locCountry_map_self {c : String} (f : Int → CountrySeriesRow)
    (hf : ∀ y, (f y).country = c) (ys : List Int) :
    locCountry (ys.map f) c = ys.map f := by
  unfold locCountry
  rw [List.filter_eq_self]
  intro r hr
  obtain ⟨y, _, rfl⟩ := List.mem_map.mp hr
  simp [hf y]

theorem locCountry_map_ne {c : String} (f : Int → CountrySeriesRow)
    (hf : ∀ y, (f y).country ≠ c) (ys : List Int) :
    locCountry (ys.map f) c = [] := by
  unfold locCountry
  rw [List.filter_eq_nil_iff]
  intro r hr
  obtain ⟨y, _, rfl⟩ := List.mem_map.mp hr
  simp [hf y]

theorem locCountry_map_const_self (c : String) (v : Int) (ys : List Int) :
    locCountry (ys.map (fun y => (⟨c, v, y⟩ : CountrySeriesRow))) c
      = ys.map (fun y => (⟨c, v, y⟩ : CountrySeriesRow)) :=
  locCountry_map_self (fun y => (⟨c, v, y⟩ : CountrySeriesRow)) (fun _ => rfl) ys

theorem locCountry_map_const_ne {c u : String} (h : u ≠ c) (v : Int) (ys : List Int) :
    locCountry (ys.map (fun y => (⟨u, v, y⟩ : CountrySeriesRow))) c = [] :=
  locCountry_map_ne (fun y => (⟨u, v, y⟩ : CountrySeriesRow)) (fun _ => h) ys

theorem locCountry_beforeRowsC (minYear : Int) (c : String) (cR : List CountrySeriesRow) :
    locCountry (beforeRowsC minYear c cR) c = beforeRowsC minYear c cR := by
  unfold beforeRowsC
  exact locCountry_map_const_self c 0 _

theorem fillCountryStep_eq (minYear maxYear : Int) (df : List CountrySeriesRow)
    (c : String) :
    fillCountryStep minYear maxYear df c
      = (df ++ beforeRowsC minYear c (locCountry df c))
          ++ (intRange (listMaxD ((locCountry (df ++ beforeRowsC minYear c (locCountry df c)) c).map
                (fun r => r.date))) (maxYear + 1)).map
              (fun y => (⟨c, listMaxD ((locCountry (df ++ beforeRowsC minYear c (locCountry df c)) c).map
                (fun r => r.match_hosted)), y⟩ : CountrySeriesRow)) := rfl

theorem locCountry_fillCountryStep_self (minYear maxYear : Int)
    (df : List CountrySeriesRow) (c : String) :
    locCountry (fillCountryStep minYear maxYear df c) c
      = locCountry df c ++ beforeRowsC minYear c (locCountry df c)
          ++ afterRowsC minYear maxYear c (locCountry df c) := by
  have hB : locCountry (df ++ beforeRowsC minYear c (locCountry df c)) c
      = locCountry df c ++ beforeRowsC minYear c (locCountry df c) := by
    rw [locCountry_append, locCountry_beforeRowsC]
  rw [fillCountryStep_eq, locCountry_append, hB, locCountry_map_const_self]
  unfold afterRowsC
  rfl

theorem locCountry_fillCountryStep_ne (minYear maxYear : Int)
    (df : List CountrySeriesRow) {c u : String} (h : u ≠ c) :
    locCountry (fillCountryStep minYear maxYear df u) c = locCountry df c := by
  have hB : locCountry (beforeRowsC minYear u (locCountry df u)) c = [] := by
    unfold beforeRowsC
    exact locCountry_map_const_ne h 0 _
  rw [fillCountryStep_eq, locCountry_append, locCountry_append, hB,
    locCountry_map_const_ne h]
  simp

theorem locCountry_foldl_notmem (minYear maxYear : Int) {c : String} {L : List String}
    (h : c ∉ L) (df : List CountrySeriesRow) :
    locCountry (L.foldl (fillCountryStep minYear maxYear) df) c = locCountry df c := by
  induction L generalizing df with
  | nil => rfl
  | cons u us ih =>
    simp only [List.foldl_cons]
    have hu : u ≠ c := by
      rintro rfl
      exact h (List.mem_cons_self u us)
    rw [ih (fun hm => h (List.mem_cons_of_mem u hm)) (fillCountryStep minYear maxYear df u),
      locCountry_fillCountryStep_ne _ _ _ hu]

theorem locCountry_foldl_mem (minYear maxYear : Int) {c : String} {L : List String}
    (hnd : L.Nodup) (hmem : c ∈ L) (df df0 : List CountrySeriesRow)
    (hdf : locCountry df c = locCountry df0 c) :
    locCountry (L.foldl (fillCountryStep minYear maxYear) df) c
      = locCountry df0 c ++ beforeRowsC minYear c (locCountry df0 c)
          ++ afterRowsC minYear maxYear c (locCountry df0 c) := by
  induction L generalizing df with
  | nil => cases hmem
  | cons u us ih =>
    simp only [List.foldl_cons]
    rcases List.mem_cons.mp hmem with rfl | hmem'
    · have hnotin : c ∉ us := (List.nodup_cons.mp hnd).1
      rw [locCountry_foldl_notmem _ _ hnotin, locCountry_fillCountryStep_self, hdf]
    · have hu : u ≠ c := by
        rintro rfl
        exact (List.nodup_cons.mp hnd).1 hmem'
      exact ih (List.nodup_cons.mp hnd).2 hmem' _
        (by rw [locCountry_fillCountryStep_ne _ _ _ hu, hdf])

theorem locCountry_fill_years_country (df : List CountrySeriesRow) {c : String}
    (hc : c ∈ df.map (fun r => r.country)) :
    locCountry (fill_years_country df) c
      = locCountry df c
          ++ beforeRowsC (listMinD (df.map (fun r => r.date))) c (locCountry df c)
          ++ afterRowsC (listMinD (df.map (fun r => r.date)))
              (listMaxD (df.map (fun r => r.date))) c (locCountry df c) :=
  locCountry_foldl_mem _ _ (uniqueList_nodup _) (mem_uniqueList.mpr hc) df df rfl

theorem locCountry_ne_nil {df : List CountrySeriesRow} {c : String}
    (hc : c ∈ df.map (fun r => r.country)) : locCountry df c ≠ [] := by
  obtain ⟨r, hr, hrc⟩ := List.mem_map.mp hc
  intro hnil
  have hmem : r ∈ locCountry df c := mem_locCountry.mpr ⟨hr, hrc⟩
  rw [hnil] at hmem
  cases hmem

theorem mem_beforeRowsC {minYear : Int} {c : String} {cR : List CountrySeriesRow}
    {r : CountrySeriesRow} (h : r ∈ beforeRowsC minYear c cR) :
    r.match_hosted = 0 ∧ minYear ≤ r.date ∧
      r.date < listMinD (cR.map (fun x => x.date)) := by
  unfold beforeRowsC at h
  obtain ⟨y, hy, rfl⟩ := List.mem_map.mp h
  obtain ⟨h1, h2⟩ := mem_intRange.mp hy
  exact ⟨rfl, h1, h2⟩

theorem mem_afterRowsC {minYear maxYear : Int} {c : String} {cR : List CountrySeriesRow}
    {r : CountrySeriesRow} (h : r ∈ afterRowsC minYear maxYear c cR) :
    r.match_hosted
        = listMaxD ((cR ++ beforeRowsC minYear c cR).map (fun x => x.match_hosted))
      ∧ listMaxD ((cR ++ beforeRowsC minYear c cR).map (fun x => x.date)) ≤ r.date
      ∧ r.date ≤ maxYear := by
  unfold afterRowsC at h
  obtain ⟨y, hy, rfl⟩ := List.mem_map.mp h
  obtain ⟨h1, h2⟩ := mem_intRange.mp hy
  refine ⟨rfl, h1, ?_⟩
  show y ≤ maxYear
  omega

theorem before_after_mono_c (minY maxY : Int) (c : String) (cR : List CountrySeriesRow)
    (hcRne : cR ≠ [])
    (hnn : ∀ r ∈ cR, 0 ≤ r.match_hosted)
    (hmono : ∀ r1 ∈ cR, ∀ r2 ∈ cR,
      r1.date ≤ r2.date → r1.match_hosted ≤ r2.match_hosted) :
    ∀ r1 ∈ cR ++ beforeRowsC minY c cR ++ afterRowsC minY maxY c cR,
      ∀ r2 ∈ cR ++ beforeRowsC minY c cR ++ afterRowsC minY maxY c cR,
        r1.date ≤ r2.date → r1.match_hosted ≤ r2.match_hosted := by
  have hextne : cR ++ beforeRowsC minY c cR ≠ [] := by
    intro hx
    exact hcRne (List.append_eq_nil.mp hx).1
  have hMge : ∀ r ∈ cR ++ beforeRowsC minY c cR,
      r.match_hosted ≤ listMaxD ((cR ++ beforeRowsC minY c cR).map (fun x => x.match_hosted)) :=
    fun r hr => le_listMaxD_of_mem (List.mem_map_of_mem _ hr)
  have hDge : ∀ r ∈ cR ++ beforeRowsC minY c cR,
      r.date ≤ listMaxD ((cR ++ beforeRowsC minY c cR).map (fun x => x.date)) :=
    fun r hr => le_listMaxD_of_mem (List.mem_map_of_mem _ hr)
  have hminle : ∀ r ∈ cR, listMinD (cR.map (fun x => x.date)) ≤ r.date :=
    fun r hr => listMinD_le_of_mem (List.mem_map_of_mem _ hr)
  have hextnn : ∀ r ∈ cR ++ beforeRowsC minY c cR, 0 ≤ r.match_hosted := by
    intro r hr
    rcases List.mem_append.mp hr with h | h
    · exact hnn r h
    · rw [(mem_beforeRowsC h).1]
  have hMmem : ∃ r ∈ cR ++ beforeRowsC minY c cR,
      r.match_hosted = listMaxD ((cR ++ beforeRowsC minY c cR).map (fun x => x.match_hosted)) := by
    have hmapne : ((cR ++ beforeRowsC minY c cR).map (fun x => x.match_hosted)) ≠ [] := by
      intro hmap
      exact hextne (List.map_eq_nil_iff.mp hmap)
    obtain ⟨r, hr, hrs⟩ := List.mem_map.mp (listMaxD_mem hmapne)
    exact ⟨r, hr, hrs⟩
  have hMnn : 0 ≤ listMaxD ((cR ++ beforeRowsC minY c cR).map (fun x => x.match_hosted)) := by
    obtain ⟨r, hr, hrs⟩ := hMmem
    rw [← hrs]
    exact hextnn r hr
  have hMle : ∀ r2 ∈ cR, (∀ x ∈ cR, x.date ≤ r2.date) →
      listMaxD ((cR ++ beforeRowsC minY c cR).map (fun x => x.match_hosted)) ≤ r2.match_hosted := by
    intro r2 hr2 hall
    obtain ⟨r, hr, hrs⟩ := hMmem
    rw [← hrs]
    rcases List.mem_append.mp hr with h | h
    · exact hmono r h r2 hr2 (hall r h)
    · rw [(mem_beforeRowsC h).1]
      exact hnn r2 hr2
  intro r1 h1 r2 h2 hle
  rcases List.mem_append.mp h1 with h1x | h1A
  · rcases List.mem_append.mp h1x with h1T | h1B
    · rcases List.mem_append.mp h2 with h2x | h2A
      · rcases List.mem_append.mp h2x with h2T | h2B
        · exact hmono r1 h1T r2 h2T hle
        · obtain ⟨_, _, hlt⟩ := mem_beforeRowsC h2B
          have hge := hminle r1 h1T
          omega
      · rw [(mem_afterRowsC h2A).1]
        exact hMge r1 (List.mem_append_left _ h1T)
    · rw [(mem_beforeRowsC h1B).1]
      rcases List.mem_append.mp h2 with h2x | h2A
      · rcases List.mem_append.mp h2x with h2T | h2B
        · exact hnn r2 h2T
        · rw [(mem_beforeRowsC h2B).1]
      · rw [(mem_afterRowsC h2A).1]
        exact hMnn
  · obtain ⟨hs1, hd1, _⟩ := mem_afterRowsC h1A
    rcases List.mem_append.mp h2 with h2x | h2A
    · rcases List.mem_append.mp h2x with h2T | h2B
      · rw [hs1]
        apply hMle r2 h2T
        intro x hx
        have hxD := hDge x (List.mem_append_left _ hx)
        omega
      · obtain ⟨_, _, hlt2⟩ := mem_beforeRowsC h2B
        obtain ⟨r0, hr0⟩ := List.exists_mem_of_ne_nil cR hcRne
        have h01 := hminle r0 hr0
        have h02 := hDge r0 (List.mem_append_left _ hr0)
        omega
    · rw [hs1, (mem_afterRowsC h2A).1]

theorem fill_years_country_mono (df : List CountrySeriesRow) {c : String}
    (hc : c ∈ df.map (fun r => r.country))
    (hnn : ∀ r ∈ locCountry df c, 0 ≤ r.match_hosted)
    (hmono : ∀ r1 ∈ locCountry df c, ∀ r2 ∈ locCountry df c,
      r1.date ≤ r2.date → r1.match_hosted ≤ r2.match_hosted) :
    ∀ r1 ∈ locCountry (fill_years_country df) c,
      ∀ r2 ∈ locCountry (fill_years_country df) c,
        r1.date ≤ r2.date → r1.match_hosted ≤ r2.match_hosted := by
  intro r1 h1 r2 h2 hle
  rw [locCountry_fill_years_country df hc] at h1 h2
  exact before_after_mono_c _ _ c (locCountry df c) (locCountry_ne_nil hc)
    hnn hmono r1 h1 r2 h2 hle

/-! Support lemmas for the remaining claims. -/

theorem mem_insertByDate {r x : MatchRow} {l : List MatchRow} :
    x ∈ insertByDate r l ↔ x = r ∨ x ∈ l := by
  induction l with
  | nil => simp [insertByDate]
  | cons y ys ih =>
    unfold insertByDate
    split_ifs with h
    · simp [List.mem_cons]
    · simp only [List.mem_cons, ih]
      tauto

theorem mem_sortByDate {x : MatchRow} {l : List MatchRow} :
    x ∈ sortByDate l ↔ x ∈ l := by
  induction l with
  | nil => simp [sortByDate]
  | cons y ys ih =>
    unfold sortByDate
    rw [mem_insertByDate]
    simp only [List.mem_cons, ih]

theorem merge_matches_rows (results : List MatchRow) (team : String) :
    ∀ r ∈ merge_matches results team,
      r.home_team = team ∧ r.home = (r.home_team == r.country) := by
  intro r hr
  unfold merge_matches at hr
  obtain ⟨x, hx, rfl⟩ := List.mem_map.mp hr
  have hx2 : x ∈ get_home_match results team ++ swap_columns (get_away_match results team) :=
    mem_sortByDate.mp hx
  have hteam : x.home_team = team := by
    rcases List.mem_append.mp hx2 with h | h
    · have hb := (List.mem_filter.mp h).2
      exact beq_iff_eq.mp hb
    · unfold swap_columns at h
      obtain ⟨z, hz, rfl⟩ := List.mem_map.mp h
      have hb := (List.mem_filter.mp hz).2
      exact beq_iff_eq.mp hb
  exact ⟨hteam, rfl⟩

theorem pairStep_total (t1 : String) (l : List MatchRow) (acc : PairAcc) :
    (l.foldl (pairStep t1) acc).team1_wins + (l.foldl (pairStep t1) acc).team2_wins
        + (l.foldl (pairStep t1) acc).draws
      = acc.team1_wins + acc.team2_wins + acc.draws + l.length := by
  induction l generalizing acc with
  | nil => simp
  | cons r rs ih =>
    simp only [List.foldl_cons, List.length_cons]
    rw [ih]
    unfold pairStep
    split_ifs <;> simp <;> omega

theorem aggregate_summaries_foldl (data : List MatchRow) (fifa : List String)
    (teams : List String) (acc : List TeamSummary) :
    teams.foldl
        (fun temp team =>
          match team_summary data team fifa with
          | some s => temp ++ [s]
          | none => temp)
        acc
      = acc ++ teams.filterMap (fun team => team_summary data team fifa) := by
  induction teams generalizing acc with
  | nil => simp
  | cons t ts ih =>
    simp only [List.foldl_cons, List.filterMap_cons]
    cases h : team_summary data t fifa with
    | none => simpa using ih acc
    | some s => simpa [List.append_assoc] using ih (acc ++ [s])

theorem hostCumRows_aux (pays : String) (temp : List MatchRow) (years : List Int)
    (st : Int × List CountrySeriesRow) :
    ∀ r ∈ (years.foldl
        (fun (st : Int × List CountrySeriesRow) y =>
          let c := st.1 + (temp.countP (fun x => x.date.year == y) : Int)
          (c, st.2 ++ [⟨pays, c, y⟩]))
        st).2,
      r.country = pays ∨ r ∈ st.2 := by
  induction years generalizing st with
  | nil =>
    intro r hr
    exact Or.inr hr
  | cons y ys ih =>
    intro r hr
    simp only [List.foldl_cons] at hr
    rcases ih _ r hr with h | h
    · exact Or.inl h
    · rcases List.mem_append.mp h with h2 | h2
      · exact Or.inr h2
      · rcases List.mem_singleton.mp h2 with rfl
        exact Or.inl rfl

theorem hostCumRows_country (pays : String) (temp : List MatchRow) (years : List Int) :
    ∀ r ∈ (hostCumRows pays temp years).2, r.country = pays := by
  intro r hr
  rcases hostCumRows_aux pays temp years ((0 : Int), ([] : List CountrySeriesRow)) r hr
    with h | h
  · exact h
  · cases h

theorem mem_countryStep (df : List MatchRow) (acc : List CountrySeriesRow) (pays : String) :
    ∀ r ∈ countryStep df acc pays, r ∈ acc ∨ r.country = pays := by
  intro r hr
  unfold countryStep at hr
  cases htemp : df.filter (fun x => x.country == pays) with
  | nil =>
    rw [htemp] at hr
    exact Or.inl hr
  | cons a as =>
    rw [htemp] at hr
    rcases List.mem_append.mp hr with h | h
    · exact Or.inl h
    · exact Or.inr (hostCumRows_country pays _ _ r h)

theorem aggregate_countries_aux (df : List MatchRow) (L : List String)
    (acc : List CountrySeriesRow) :
    ∀ r ∈ L.foldl (countryStep df) acc, r ∈ acc ∨ r.country ∈ L := by
  induction L generalizing acc with
  | nil =>
    intro r hr
    exact Or.inl hr
  | cons p ps ih =>
    intro r hr
    simp only [List.foldl_cons] at hr
    rcases ih (countryStep df acc p) r hr with h | h
    · rcases mem_countryStep df acc p r h with h2 | h2
      · exact Or.inl h2
      · exact Or.inr (by rw [h2]; exact List.mem_cons_self p ps)
    · exact Or.inr (List.mem_cons_of_mem p h)

/-! Example rows used by the concrete theorems below. -/

/-- The 1930 record of the worked example (a home match of Team A). -/
def exMatch1 : MatchRow :=
  ⟨⟨1930, 7, 13⟩, "Team A", "Team B", 3, 1, "FIFA World Cup", "Montevideo", "Uruguay", false⟩

/-- A home match of Team A played at a neutral venue in a third country. -/
def exMatch2 : MatchRow :=
  ⟨⟨1930, 7, 13⟩, "Team A", "Team B", 2, 0, "Friendly", "P", "Neutralia", true⟩

/-- A match hosted by its home side's own country. -/
def exMatch3 : MatchRow :=
  ⟨⟨1931, 5, 2⟩, "X", "Y", 1, 0, "Friendly", "P", "X", false⟩

/-- C1, amended.  After `fill_years` an entity's rows are exactly its input
rows, then one value-0 row per year from the global minimum up to (and
excluding) the entity's first year, then one row carrying the entity's
maximum value per year from the entity's last year (which is therefore
duplicated) up to the global maximum; years missing strictly inside the
entity's own range stay missing, so "exactly one row per year in the global
range" fails; the values are non-decreasing in the year whenever the
entity's input values are non-negative and non-decreasing (as cumulative
series are). -/
theorem c1_fill_years_fills_amended
    (df : List TeamSeriesRow) (cdf : List CountrySeriesRow) (t c : String)
    (ht : t ∈ df.map (fun r => r.home_team))
    (hc : c ∈ cdf.map (fun r => r.country)) :
    (locTeam (fill_years_team df) t
        = locTeam df t
            ++ beforeRowsT (listMinD (df.map (fun r => r.date))) t (locTeam df t)
            ++ afterRowsT (listMinD (df.map (fun r => r.date)))
                (listMaxD (df.map (fun r => r.date))) t (locTeam df t))
    ∧ (locCountry (fill_years_country cdf) c
        = locCountry cdf c
            ++ beforeRowsC (listMinD (cdf.map (fun r => r.date))) c (locCountry cdf c)
            ++ afterRowsC (listMinD (cdf.map (fun r => r.date)))
                (listMaxD (cdf.map (fun r => r.date))) c (locCountry cdf c))
    ∧ ((∀ r ∈ locTeam df t, 0 ≤ r.cumulated_score) →
        (∀ r1 ∈ locTeam df t, ∀ r2 ∈ locTeam df t,
          r1.date ≤ r2.date → r1.cumulated_score ≤ r2.cumulated_score) →
        ∀ r1 ∈ locTeam (fill_years_team df) t, ∀ r2 ∈ locTeam (fill_years_team df) t,
          r1.date ≤ r2.date → r1.cumulated_score ≤ r2.cumulated_score)
    ∧ ((∀ r ∈ locCountry cdf c, 0 ≤ r.match_hosted) →
        (∀ r1 ∈ locCountry cdf c, ∀ r2 ∈ locCountry cdf c,
          r1.date ≤ r2.date → r1.match_hosted ≤ r2.match_hosted) →
        ∀ r1 ∈ locCountry (fill_years_country cdf) c,
          ∀ r2 ∈ locCountry (fill_years_country cdf) c,
            r1.date ≤ r2.date → r1.match_hosted ≤ r2.match_hosted) :=
  ⟨locTeam_fill_years_team df ht, locCountry_fill_years_country cdf hc,
    fun hnn hm => fill_years_team_mono df ht hnn hm,
    fun hnn hm => fill_years_country_mono cdf hc hnn hm⟩

/-- Witness for C1's theorem on a one-row team series: the characterization
evaluates to a frame in which team A's single year 2000 appears twice. -/
theorem c1_fill_years_fills_amended_witness :
    locTeam (fill_years_team [⟨2000, 5, "A"⟩]) "A"
      = [⟨2000, 5, "A"⟩, ⟨2000, 5, "A"⟩] := by
  have h := (c1_fill_years_fills_amended [⟨2000, 5, "A"⟩] [⟨"F", 2, 1999⟩] "A" "F"
    (by decide) (by decide)).1
  rw [h]
  decide

/-- Counterexample to C1 as stated: on the series with rows (2000, 5, A)
and (2001, 3, A) the team branch of `fill_years` appends a second row for
year 2001, so team A does not have exactly one row per year of
[2000, 2001], and the value drops from 5 (year 2000) to 3 (year 2001), so
it is not non-decreasing either. -/
theorem c1_fill_years_fills_counterexample :
    fill_years (SeriesDF.teamDF [⟨2000, 5, "A"⟩, ⟨2001, 3, "A"⟩]) "team"
        = Except.ok (SeriesDF.teamDF
            [⟨2000, 5, "A"⟩, ⟨2001, 3, "A"⟩, ⟨2001, 5, "A"⟩])
      ∧ ¬ (((fill_years_team [⟨2000, 5, "A"⟩, ⟨2001, 3, "A"⟩]).filter
            (fun r => r.home_team == "A" && r.date == (2001 : Int))).length = 1)
      ∧ (⟨2000, 5, "A"⟩ : TeamSeriesRow) ∈ fill_years_team [⟨2000, 5, "A"⟩, ⟨2001, 3, "A"⟩]
      ∧ (⟨2001, 3, "A"⟩ : TeamSeriesRow) ∈ fill_years_team [⟨2000, 5, "A"⟩, ⟨2001, 3, "A"⟩]
      ∧ ¬ ((5 : Int) ≤ 3) := by
  refine ⟨rfl, ?_⟩
  decide

/-- C2, amended.  Every row of `merge_matches` has `home_team` equal to the
subject team, and its `home` flag is true exactly when the record's
`country` equals the subject team — the flag compares against the venue
country, not against the pre-swap home side. -/
theorem c2_merge_matches_home_flag_amended (results : List MatchRow) (team : String) :
    ∀ r ∈ merge_matches results team,
      r.home_team = team ∧ r.home = (team == r.country) := by
  intro r hr
  obtain ⟨h1, h2⟩ := merge_matches_rows results team r hr
  refine ⟨h1, ?_⟩
  rw [h2, h1]

/-- Witness for C2's theorem on a concrete one-row table. -/
theorem c2_merge_matches_home_flag_witness :
    (⟨exMatch2, false⟩ : MatchH).home_team = "Team A"
      ∧ (⟨exMatch2, false⟩ : MatchH).home
          = ("Team A" == (⟨exMatch2, false⟩ : MatchH).country) :=
  c2_merge_matches_home_flag_amended [exMatch2] "Team A" ⟨exMatch2, false⟩ (by decide)

/-- Counterexample to C2 as stated: the single record of this table has
pre-swap `home_team` equal to the subject team, yet the merged row's `home`
flag is false (the match was played in a third country). -/
theorem c2_merge_matches_home_flag_counterexample :
    exMatch2.home_team = "Team A"
      ∧ (merge_matches [exMatch2] "Team A").map (fun r => r.home) = [false] := by
  decide

/-- C3, amended.  `filter_years` with start > end returns an empty frame;
the source raises no error on an inverted range (there is no
InvalidRangeError anywhere in the code). -/
theorem c3_filter_years_range_amended :
    ∀ (T : List MatchRow) (start stop : Int), stop < start →
      filter_years T start stop = [] := by
  intro T start stop h
  unfold filter_years
  rw [List.filter_eq_nil_iff]
  intro r hr hcontra
  rw [Bool.and_eq_true] at hcontra
  obtain ⟨h1, h2⟩ := hcontra
  unfold dateLE at h1 h2
  simp only [Bool.or_eq_true, Bool.and_eq_true, decide_eq_true_eq] at h1 h2
  omega

/-- Witness for C3's theorem at a concrete inverted range. -/
theorem c3_filter_years_range_witness :
    (1995 : Int) < 2001 ∧ filter_years [exMatch1] 2001 1995 = [] :=
  ⟨by decide, c3_filter_years_range_amended [exMatch1] 2001 1995 (by decide)⟩

/-- Counterexample to C3 as stated: at start = 2000 > end = 1990 the call
returns normally (with the empty frame) instead of failing. -/
theorem c3_filter_years_range_counterexample :
    filter_years [exMatch1] 2000 1990 = [] := by
  decide

/-- C4, amended.  For any mode other than "team" and "country",
`fill_years` prints "please provide a mode" and returns the input frame
unchanged; it raises nothing (there is no InvalidModeError in the code). -/
theorem c4_fill_years_mode_amended :
    ∀ (df : SeriesDF) (mode : String), mode ≠ "team" → mode ≠ "country" →
      fill_years df mode = Except.ok df := by
  intro df mode h1 h2
  simp [fill_years, h1, h2]

/-- Witness for C4's theorem at a concrete unrecognized mode. -/
theorem c4_fill_years_mode_witness :
    fill_years (SeriesDF.teamDF [⟨2000, 5, "A"⟩]) "foo"
      = Except.ok (SeriesDF.teamDF [⟨2000, 5, "A"⟩]) :=
  c4_fill_years_mode_amended (SeriesDF.teamDF [⟨2000, 5, "A"⟩]) "foo"
    (by decide) (by decide)

/-- Counterexample to C4 as stated: mode "banana" returns the frame
unchanged instead of failing. -/
theorem c4_fill_years_mode_counterexample :
    fill_years (SeriesDF.countryDF [⟨"F", 2, 1999⟩]) "banana"
      = Except.ok (SeriesDF.countryDF [⟨"F", 2, 1999⟩]) := rfl

/-- C5, amended.  `filter_teams` with an empty team list fails with
pandas' `ValueError: No objects to concatenate` (from `pd.concat` on an
empty list of frames) instead of returning an empty result. -/
theorem c5_filter_teams_empty_amended :
    ∀ results : List MatchRow,
      filter_teams results [] = Except.error "No objects to concatenate" :=
  fun _ => rfl

/-- Counterexample to C5 as stated: on a concrete table the empty-team call
raises rather than returning the empty frame. -/
theorem c5_filter_teams_empty_counterexample :
    filter_teams [exMatch1] [] = Except.error "No objects to concatenate"
      ∧ ¬ (filter_teams [exMatch1] [] = Except.ok []) :=
  ⟨rfl, fun h => Except.noConfusion h⟩

/-- C6.  `swap_columns` is an involution on match tables, and one
application exchanges only the home/away team and score values, leaving
date, tournament, city, country and neutral untouched. -/
theorem c6_swap_columns_involution :
    ∀ T : List MatchRow,
      swap_columns (swap_columns T) = T
      ∧ ∀ r : MatchRow,
          swap_columns [r]
            = [⟨r.date, r.away_team, r.home_team, r.away_score, r.home_score,
                r.tournament, r.city, r.country, r.neutral⟩] := by
  intro T
  constructor
  · unfold swap_columns
    rw [List.map_map]
    conv_rhs => rw [← List.map_id T]
    rfl
  · intro r
    rfl

/-- C7.  The `total` field of `aggregate_results` equals
team1_wins + team2_wins + draws, and equals the number of rows selected by
`filter_encounter` for the pair. -/
theorem c7_aggregate_results_total :
    ∀ (T : List MatchRow) (team1 team2 : String),
      (aggregate_results T team1 team2).total
          = (aggregate_results T team1 team2).team1_wins
              + (aggregate_results T team1 team2).team2_wins
              + (aggregate_results T team1 team2).draws
        ∧ (aggregate_results T team1 team2).total
          = ((filter_encounter T team1 team2).length : Int) := by
  intro T t1 t2
  have h := pairStep_total t1 (filter_encounter T t1 t2) ⟨0, 0, 0, 0, 0⟩
  simp only [aggregate_results]
  simp at h
  exact ⟨by omega, by omega⟩

/-- C8.  On the single record (1930-07-13, Team A, Team B, 3, 1),
`team_summary` for Team A yields win = 1, draw = 0, loss = 0,
goal_average = 2 (the undivided sum of goal differences),
goal_scored_average = 3 and goal_taken_average = 1 (sums divided by
win + draw + loss), with FIFA rank 0 from the one-row ranking table. -/
theorem c8_team_summary_example :
    team_summary [exMatch1] "Team A" ["Team A"]
      = some ⟨"Team A", 2, 3, 1, 1, 0, 0, 0⟩ := by
  show some (⟨"Team A", 2, ((3 : Int) : Rat) / ((1 : Int) : Rat),
      ((1 : Int) : Rat) / ((1 : Int) : Rat), 1, 0, 0, 0⟩ : TeamSummary)
    = some ⟨"Team A", 2, 3, 1, 1, 0, 0, 0⟩
  simp only [Option.some.injEq, TeamSummary.mk.injEq]
  norm_num

/-- C9.  `aggregate_summaries` is total and equals, in input order, the
concatenation of exactly those per-team summaries that succeed; teams whose
summary fails (unranked team, zero matches) are skipped, never aborting the
batch. -/
theorem c9_aggregate_summaries_resilient :
    ∀ (data : List MatchRow) (teams : List String) (fifa : List String),
      aggregate_summaries data teams fifa
        = teams.filterMap (fun team => team_summary data team fifa) := by
  intro data teams fifa
  unfold aggregate_summaries
  simpa using aggregate_summaries_foldl data fifa teams []

/-- C10.  Every country value in the output of `aggregate_countries`
occurs as some record's home_team in the input; a country never appearing
as home_team contributes no output rows. -/
theorem c10_aggregate_countries_domain :
    ∀ df : List MatchRow,
      (∀ r ∈ aggregate_countries df, r.country ∈ df.map (fun m => m.home_team))
      ∧ ∀ c : String, c ∉ df.map (fun m => m.home_team) →
          ∀ r ∈ aggregate_countries df, r.country ≠ c := by
  intro df
  have hmain : ∀ r ∈ aggregate_countries df, r.country ∈ df.map (fun m => m.home_team) := by
    intro r hr
    unfold aggregate_countries at hr
    rcases aggregate_countries_aux df _ _ r hr with h | h
    · cases h
    · exact mem_uniqueList.mp h
  refine ⟨hmain, ?_⟩
  intro c hc r hr hrc
  exact hc (hrc ▸ hmain r hr)

/-- Witness for C10's theorem on a one-row table hosted by its home side. -/
theorem c10_aggregate_countries_domain_witness :
    "X" ∈ ([exMatch3].map (fun m => m.home_team)) :=
  (c10_aggregate_countries_domain [exMatch3]).1 ⟨"X", 1, 1931⟩ (by decide)
